import Mathlib

/-!
Verification of `doit`'s command layer (`src/doit/cmds.py`) against its
specification.  The Python functions `doit_run`, `doit_list`, `doit_forget`,
`doit_ignore` and the class `FileModifyWatcher` / `doit_auto` are shallowly
embedded as Lean functions.  Stateful interaction with the persistent
dependency store is made explicit: a `DepStore` value carries the record map
together with a trace of the store operations performed, so claims about
*which* operations run and in *what order* become statements about the trace.
Loops whose termination is not structural (the group-expansion work lists)
take an explicit fuel argument; fuel exhaustion is a distinguished outcome
`CmdRes.nofuel`, never confused with normal termination or an error.
-/

set_option maxHeartbeats 1000000

namespace Doit

/-- A task descriptor, the fields of `doit.task.Task` used by `cmds.py`:
`name`, `actions` (only emptiness is observed by the commands, so actions are
kept abstract as labels), `task_dep`, `file_dep`, `doc` and `is_subtask`. -/
structure Task where
  name : String
  actions : List String
  task_dep : List String
  file_dep : List String
  doc : Option String
  is_subtask : Bool
deriving DecidableEq

/-- Task status as used by `doit_list`: the strings `'ignore'`,
`'up-to-date'`, `'run'` of the Python code. -/
inductive Status where
  | ignore
  | upToDate
  | run
deriving DecidableEq, BEq

/-- Modelled from the spec: one persisted dependency record (§3
"Dependency Record"), a mapping from dependency file path to fingerprint plus
an `ignored` flag.  The concrete module `doit/dependency.py` is not under
`src/`; only its interface contract is specified. -/
structure DepRecord where
  fingerprints : List (String × String)
  ignored : Bool
deriving DecidableEq

/-- One operation performed on the dependency store; traces of these record
the order of store mutations and the `close` call. -/
inductive StoreOp where
  | removeOp (name : String)
  | removeAllOp
  | ignoreOp (name : String)
  | commitOp (name : String)
  | closeOp
deriving DecidableEq, BEq

/-- Modelled from the spec: the dependency store (§4.1), a key-value map from
task name to `DepRecord`, extended with the trace of operations performed so
that ordering claims are expressible.  `doit/dependency.py` is not under
`src/`. -/
structure DepStore where
  records : List (String × DepRecord)
  trace : List StoreOp
deriving DecidableEq

/-- Record lookup by task name. -/
def DepStore.lookup (s : DepStore) (n : String) : Option DepRecord :=
  s.records.lookup n

/-- Modelled from the spec: `remove(name)` deletes the record for one task,
idempotent if absent (§4.1). -/
def DepStore.remove (s : DepStore) (n : String) : DepStore :=
  { records := s.records.filter (fun p => p.1 != n)
    trace := s.trace ++ [.removeOp n] }

/-- Modelled from the spec: `remove_all()` clears every record (§4.1). -/
def DepStore.remove_all (s : DepStore) : DepStore :=
  { records := [], trace := s.trace ++ [.removeAllOp] }

/-- Dict-style update used by `ignore`: set the `ignored` flag of `n`'s
record, creating the record when absent, keeping existing fingerprints. -/
def setIgnored : List (String × DepRecord) → String → List (String × DepRecord)
  | [], n => [(n, { fingerprints := [], ignored := true })]
  | p :: rest, n =>
    if p.1 = n then (p.1, { p.2 with ignored := true }) :: rest
    else p :: setIgnored rest n

/-- Modelled from the spec: `ignore(task)` sets the ignored flag without
deleting existing fingerprints (§4.1). -/
def DepStore.ignore (s : DepStore) (n : String) : DepStore :=
  { records := setIgnored s.records n
    trace := s.trace ++ [.ignoreOp n] }

/-- Dict-style update used by `commit`: replace the stored fingerprints of
`n`'s record, creating the record (not ignored) when absent. -/
def setFps : List (String × DepRecord) → String → List (String × String) →
    List (String × DepRecord)
  | [], n, fps => [(n, { fingerprints := fps, ignored := false })]
  | p :: rest, n, fps =>
    if p.1 = n then (p.1, { p.2 with fingerprints := fps }) :: rest
    else p :: setFps rest n fps

/-- Modelled from the spec: `commit(task, fingerprints)` atomically replaces
the stored fingerprints for a task after its actions succeed (§4.1). -/
def DepStore.commit (s : DepStore) (n : String) (fps : List (String × String)) :
    DepStore :=
  { records := setFps s.records n fps
    trace := s.trace ++ [.commitOp n] }

/-- Modelled from the spec: `close()` releases the persisted handle,
flushing to disk (§4.1).  Records are untouched; the trace records the call. -/
def DepStore.close (s : DepStore) : DepStore :=
  { records := s.records, trace := s.trace ++ [.closeOp] }

/-- The dict `tasks = dict([(t.name, t) for t in taskList])` built by the
commands: on duplicate names the later list entry wins, as in a Python dict
comprehension. -/
def tasksOf (l : List Task) : String → Option Task :=
  fun n => l.reverse.find? (fun t => t.name == n)

/-- Result of a command that mutates the store: normal return, a raised
exception (`InvalidCommand` or `KeyError`, with the store state and output
lines at the moment of the raise), or fuel exhaustion of the embedding. -/
inductive CmdRes (α : Type) where
  | ok (a : α)
  | err (msg : String) (s : DepStore) (out : List String)
  | nofuel
deriving DecidableEq

/-- The `while group:` loop of `doit_forget`: pop the front of the work list;
if the popped task has no actions (a group task) append its `task_dep` to the
back; remove the popped task's record and write a `forgeting` line.  A name
missing from the task dict raises `KeyError` as `tasks[to_forget]` would. -/
def forgetLoop (tasks : String → Option Task) :
    Nat → List String → DepStore → List String → CmdRes (DepStore × List String)
  | _, [], s, out => .ok (s, out)
  | 0, _ :: _, _, _ => .nofuel
  | f + 1, n :: rest, s, out =>
    match tasks n with
    | none => .err ("KeyError: " ++ n) s out
    | some t =>
      let rest2 := if t.actions.isEmpty then rest ++ t.task_dep else rest
      forgetLoop tasks f rest2 (s.remove n) (out ++ ["forgeting " ++ n])

/-- The `for taskName in forgetTasks:` loop of `doit_forget`: each name is
checked against the task dict only when its turn comes; an unknown name
raises `InvalidCommand` at that point. -/
def forgetNames (tasks : String → Option Task) (fuel : Nat) :
    List String → DepStore → List String → CmdRes (DepStore × List String)
  | [], s, out => .ok (s, out)
  | n :: rest, s, out =>
    match tasks n with
    | none => .err ("'" ++ n ++ "' is not a task.") s out
    | some _ =>
      match forgetLoop tasks fuel [n] s out with
      | .ok (s2, out2) => forgetNames tasks fuel rest s2 out2
      | r => r

/-- `doit_forget`: with no names, clear the whole store; otherwise process
each requested name through the group-expansion loop.  `close()` runs only
after the loop completes normally — the Python code has no `try/finally`, so
a raised exception skips it. -/
def doit_forget (tasks : String → Option Task) (fuel : Nat)
    (forgetTasks : List String) (s : DepStore) (out : List String) :
    CmdRes (DepStore × List String) :=
  if forgetTasks.isEmpty then
    .ok ((s.remove_all).close, out ++ ["forgeting all tasks"])
  else
    match forgetNames tasks fuel forgetTasks s out with
    | .ok (s2, out2) => .ok (s2.close, out2)
    | r => r

/-- The `while group:` loop of `doit_ignore`: same traversal as
`forgetLoop` but calling `ignore` and writing `ignoring` lines. -/
def ignoreLoop (tasks : String → Option Task) :
    Nat → List String → DepStore → List String → CmdRes (DepStore × List String)
  | _, [], s, out => .ok (s, out)
  | 0, _ :: _, _, _ => .nofuel
  | f + 1, n :: rest, s, out =>
    match tasks n with
    | none => .err ("KeyError: " ++ n) s out
    | some t =>
      let rest2 := if t.actions.isEmpty then rest ++ t.task_dep else rest
      ignoreLoop tasks f rest2 (s.ignore n) (out ++ ["ignoring " ++ n])

/-- The `for taskName in ignoreTasks:` loop of `doit_ignore`. -/
def ignoreNames (tasks : String → Option Task) (fuel : Nat) :
    List String → DepStore → List String → CmdRes (DepStore × List String)
  | [], s, out => .ok (s, out)
  | n :: rest, s, out =>
    match tasks n with
    | none => .err ("'" ++ n ++ "' is not a task.") s out
    | some _ =>
      match ignoreLoop tasks fuel [n] s out with
      | .ok (s2, out2) => ignoreNames tasks fuel rest s2 out2
      | r => r

/-- `doit_ignore`: with an empty task list, write the refusal message and
return before any store interaction (the Python code returns before even
constructing the `Dependency` manager); otherwise expand and ignore each
requested name, closing the store on normal completion only. -/
def doit_ignore (tasks : String → Option Task) (fuel : Nat)
    (ignoreTasks : List String) (s : DepStore) (out : List String) :
    CmdRes (DepStore × List String) :=
  if ignoreTasks.isEmpty then
    .ok (s, out ++ ["You cant ignore all tasks! Please select a task."])
  else
    match ignoreNames tasks fuel ignoreTasks s out with
    | .ok (s2, out2) => .ok (s2.close, out2)
    | r => r

/-- The `status_map = \x7b'ignore': 'I', 'up-to-date': 'U', 'run': 'R'\x7d`
dict of `doit_list`. -/
def statusMap : Status → String
  | .ignore => "I"
  | .upToDate => "U"
  | .run => "R"

/-- Modelled from the spec: `Dependency.get_status(task)` (§4.1 and §3) —
`doit/dependency.py` is not under `src/`.  Absence of a record means
status `run`; an ignored record means `ignore`; otherwise the task is
`up-to-date` exactly when every `file_dep`'s current fingerprint matches the
stored one (a missing file or missing stored fingerprint counts as a
mismatch) and every `task_dep`'s status is itself `up-to-date`.  The
recursion through `task_dep` carries fuel; exhausted fuel defaults to
`run`. -/
def getStatus (tasks : String → Option Task) (fp : String → Option String)
    (s : DepStore) : Nat → Task → Status
  | 0, _ => .run
  | f + 1, t =>
    match s.lookup t.name with
    | none => .run
    | some r =>
      if r.ignored then .ignore
      else if (t.file_dep.all fun fl =>
            match fp fl, r.fingerprints.lookup fl with
            | some cur, some st => cur == st
            | _, _ => false)
          && (t.task_dep.all fun d =>
            match tasks d with
            | some td => getStatus tasks fp s f td == .upToDate
            | none => false)
      then .upToDate else .run

/-- The fingerprints freshly computed for a task's `file_dep` from the
current filesystem contents `fp`; files that do not exist contribute no
fingerprint. -/
def currentFps (fp : String → Option String) (t : Task) :
    List (String × String) :=
  t.file_dep.filterMap (fun fl => (fp fl).map (fun v => (fl, v)))

/-- The name-and-doc part of a printed task line: `task.name`, extended with
`"\t* %s" % task.doc` when `print_doc` is set and the doc string is truthy
(neither `None` nor empty). -/
def taskStr (printDoc : Bool) (t : Task) : String :=
  match printDoc, t.doc with
  | true, some d => if d.isEmpty then t.name else t.name ++ "\t* " ++ d
  | _, _ => t.name

/-- The `for subt in task.task_dep:` loop at the end of `_list_print_task`:
each entry whose name starts with the parent's name is looked up and printed
recursively (`rec` is the recursive printer); a `task_dep` entry passing the
test but absent from the dict raises `KeyError`, here `none`. -/
def listPrintSubs (rec : Task → Option (List String))
    (tasks : String → Option Task) (pname : String) :
    List String → Option (List String)
  | [] => some []
  | sname :: rest =>
    if sname.startsWith pname then
      match tasks sname with
      | none => none
      | some t =>
        match rec t, listPrintSubs rec tasks pname rest with
        | some l1, some l2 => some (l1 ++ l2)
        | _, _ => none
    else listPrintSubs rec tasks pname rest

/-- `_list_print_task` from `doit_list`: build the task's line (doc suffix,
then status letter when `print_status`), write it, then, when
`print_subtasks`, recurse into the `task_dep` entries whose name starts with
this task's name.  Output is the list of lines written; the recursion
carries fuel (`none` on exhaustion). -/
def listPrintTask (tasks : String → Option Task) (fp : String → Option String)
    (s : DepStore) (sfuel : Nat) (printDoc printStatus printSub : Bool) :
    Nat → Task → Option (List String)
  | 0, _ => none
  | f + 1, t =>
    let line :=
      if printStatus then
        statusMap (getStatus tasks fp s sfuel t) ++ " " ++ taskStr printDoc t
      else taskStr printDoc t
    if printSub then
      match listPrintSubs (listPrintTask tasks fp s sfuel printDoc printStatus printSub f)
          tasks t.name t.task_dep with
      | some subLines => some (line :: subLines)
      | none => none
    else some [line]

/-- `doit_list`: select the tasks to print (the filter list when given, else
the whole task list), skip subtasks when no filter was given and private
(underscore-prefixed) tasks unless `print_private`, and print each selected
task via `_list_print_task`.  An unknown filter name raises `KeyError`
(`none`). -/
def doit_list (taskList : List Task) (fp : String → Option String)
    (s : DepStore) (sfuel lfuel : Nat) (filterTasks : List String)
    (printSub printDoc printStatus printPrivate : Bool) :
    Option (List String) :=
  let tasks := tasksOf taskList
  match (if filterTasks.isEmpty then some taskList
         else filterTasks.mapM (fun n => tasks n)) with
  | none => none
  | some printTasks =>
    printTasks.foldl
      (fun acc t =>
        match acc with
        | none => none
        | some ls =>
          if filterTasks.isEmpty && t.is_subtask then some ls
          else if (!printPrivate) && t.name.startsWith "_" then some ls
          else
            match listPrintTask tasks fp s sfuel printDoc printStatus printSub
                lfuel t with
            | some l2 => some (ls ++ l2)
            | none => none)
      (some [])

/-- Outcome of `doit_run`'s pre-execution phase: the task-selection error
propagated from `TaskSetup.process()`, the `InvalidCommand` raised for a
reporter name missing from `REPORTERS` (carrying the offending name), or
entry into the runner (`run_tasks`) with the selected plan. -/
inductive RunOutcome where
  | selErr (msg : String)
  | badReporter (name : String) (msg : String)
  | ran (plan : List Task) (reporterName : String)
deriving DecidableEq

/-- `doit_run`'s control flow up to entering the runner.  Task selection
(`TaskSetup(task_list, options).process()`) runs first; its result is passed
in, modelled from the spec (§4.2: unknown requested names fail with a
"not a task" command error) since `doit/main.py` is not under `src/`.  Only
then is the reporter name checked against the registry; an unknown reporter
raises `InvalidCommand` with the message of the source.  Output-stream
handling is elided: it does not affect which of the three outcomes occurs. -/
def doit_run (reporters : List String) (selection : Except String (List Task))
    (reporterName : String) : RunOutcome :=
  match selection with
  | .error e => .selErr e
  | .ok plan =>
    if reporterName ∈ reporters then .ran plan reporterName
    else
      .badReporter reporterName
        ("No reporter named '" ++ reporterName ++
          "'.\nType 'doit help run' to see a list of available reporters.")

/-- `FileModifyWatcher`'s constructor state: `file_list` is the set of
absolutized watched files, `watch_dirs` the set of their parent directories
(one watch per distinct directory).  Python sets are modelled as deduplicated
lists; `abspath` and `dirname` are the `os.path` functions, kept abstract. -/
structure FMWatcher where
  file_list : List String
  watch_dirs : List String
deriving DecidableEq

/-- `FileModifyWatcher.__init__`. -/
def mkWatcher (abspath dirname : String → String) (fl : List String) :
    FMWatcher :=
  let files := (fl.map abspath).dedup
  { file_list := files, watch_dirs := (files.map dirname).dedup }

/-- `FileModifyWatcher._handle`: whether an event with this pathname is
passed on to `handle_event`. -/
def FMWatcher.handles (w : FMWatcher) (pathname : String) : Bool :=
  w.file_list.contains pathname

/-- The watch set computed once by `doit_auto`:
`itertools.chain(*[s.file_dep for s in selected_tasks])`. -/
def watchFiles (plan : List Task) : List String :=
  plan.flatMap (fun t => t.file_dep)

/-- The watcher object `doit_auto` constructs from the selected plan (the
plan itself comes from `TaskSetup.process()`, passed in). -/
def doitAutoWatcher (abspath dirname : String → String) (plan : List Task) :
    FMWatcher :=
  mkWatcher abspath dirname (watchFiles plan)

/-! ## Unfolding lemmas for the work-list loops -/

theorem forgetLoop_nil (tasks : String → Option Task) (fuel : Nat)
    (s : DepStore) (out : List String) :
    forgetLoop tasks fuel [] s out = .ok (s, out) := by
  cases fuel <;> rfl

theorem forgetLoop_cons (tasks : String → Option Task) (f : Nat)
    (n : String) (rest : List String) (s : DepStore) (out : List String)
    (t : Task) (h : tasks n = some t) :
    forgetLoop tasks (f + 1) (n :: rest) s out =
      forgetLoop tasks f (if t.actions.isEmpty then rest ++ t.task_dep else rest)
        (s.remove n) (out ++ ["forgeting " ++ n]) := by
  simp [forgetLoop, h]

theorem forgetLoop_cons_missing (tasks : String → Option Task) (f : Nat)
    (n : String) (rest : List String) (s : DepStore) (out : List String)
    (h : tasks n = none) :
    forgetLoop tasks (f + 1) (n :: rest) s out = .err ("KeyError: " ++ n) s out := by
  simp [forgetLoop, h]

theorem ignoreLoop_nil (tasks : String → Option Task) (fuel : Nat)
    (s : DepStore) (out : List String) :
    ignoreLoop tasks fuel [] s out = .ok (s, out) := by
  cases fuel <;> rfl

theorem ignoreLoop_cons (tasks : String → Option Task) (f : Nat)
    (n : String) (rest : List String) (s : DepStore) (out : List String)
    (t : Task) (h : tasks n = some t) :
    ignoreLoop tasks (f + 1) (n :: rest) s out =
      ignoreLoop tasks f (if t.actions.isEmpty then rest ++ t.task_dep else rest)
        (s.ignore n) (out ++ ["ignoring " ++ n]) := by
  simp [ignoreLoop, h]

theorem ignoreLoop_cons_missing (tasks : String → Option Task) (f : Nat)
    (n : String) (rest : List String) (s : DepStore) (out : List String)
    (h : tasks n = none) :
    ignoreLoop tasks (f + 1) (n :: rest) s out = .err ("KeyError: " ++ n) s out := by
  simp [ignoreLoop, h]

/-! ## Lookup lemmas for the record map -/

theorem lookup_setIgnored_self (l : List (String × DepRecord)) (n : String) :
    ∃ r, (setIgnored l n).lookup n = some r ∧ r.ignored = true := by
  induction l with
  | nil =>
    refine ⟨{ fingerprints := [], ignored := true }, ?_, rfl⟩
    simp [setIgnored, List.lookup]
  | cons p rest ih =>
    by_cases h : p.1 = n
    · refine ⟨{ p.2 with ignored := true }, ?_, rfl⟩
      simp [setIgnored, h, List.lookup]
    · obtain ⟨r, hr, hig⟩ := ih
      refine ⟨r, ?_, hig⟩
      have hb : (n == p.1) = false := beq_false_of_ne (fun hh => h hh.symm)
      simp [setIgnored, h, List.lookup, hb, hr]

theorem lookup_setIgnored_other (l : List (String × DepRecord)) (n m : String)
    (h : m ≠ n) : (setIgnored l n).lookup m = l.lookup m := by
  induction l with
  | nil => simp [setIgnored, List.lookup, beq_false_of_ne h]
  | cons p rest ih =>
    by_cases hp : p.1 = n
    · subst hp
      have hb : (m == p.1) = false := beq_false_of_ne h
      simp [setIgnored, List.lookup, hb]
    · simp [setIgnored, hp, List.lookup, ih]

theorem ignore_lookup_self (s : DepStore) (n : String) :
    ∃ r, (s.ignore n).lookup n = some r ∧ r.ignored = true := by
  simpa [DepStore.ignore, DepStore.lookup] using lookup_setIgnored_self s.records n

theorem ignore_keeps_ignored (s : DepStore) (n m : String)
    (h : ∃ r, s.lookup n = some r ∧ r.ignored = true) :
    ∃ r, (s.ignore m).lookup n = some r ∧ r.ignored = true := by
  by_cases hnm : n = m
  · subst hnm; exact ignore_lookup_self s n
  · obtain ⟨r, hr, hig⟩ := h
    exact ⟨r, by simpa [DepStore.ignore, DepStore.lookup,
      lookup_setIgnored_other s.records m n hnm] using hr, hig⟩

theorem close_lookup (s : DepStore) (n : String) :
    s.close.lookup n = s.lookup n := rfl

/-! ## Claim C4 -/

/-- Claim C4 (confirmed): invoking `doit_ignore` with an empty task list
performs no store mutation at all (the store value, records and trace alike,
is returned untouched), writes the "You cant ignore all tasks! Please select
a task." refusal to the output stream, and returns early. -/
theorem ignore_empty_list_guard (tasks : String → Option Task) (fuel : Nat)
    (s : DepStore) (out : List String) :
    doit_ignore tasks fuel [] s out =
      .ok (s, out ++ ["You cant ignore all tasks! Please select a task."]) := rfl

/-! ## The run of `doit_forget` / `doit_ignore` on a two-member group -/

theorem forget_gxy_run (tasks : String → Option Task) (g x y : String)
    (gt xt yt : Task) (s : DepStore) (out : List String) (fuel : Nat)
    (hg : tasks g = some gt) (hga : gt.actions = []) (hgd : gt.task_dep = [x, y])
    (hx : tasks x = some xt) (hxa : xt.actions ≠ [])
    (hy : tasks y = some yt) (hya : yt.actions ≠ []) :
    doit_forget tasks (fuel + 3) [g] s out =
      .ok ((((s.remove g).remove x).remove y).close,
        out ++ ["forgeting " ++ g, "forgeting " ++ x, "forgeting " ++ y]) := by
  have step1 : forgetLoop tasks (fuel + 3) [g] s out =
      forgetLoop tasks (fuel + 2) [x, y] (s.remove g) (out ++ ["forgeting " ++ g]) := by
    rw [show fuel + 3 = (fuel + 2) + 1 from rfl,
      forgetLoop_cons tasks (fuel + 2) g [] s out gt hg]
    simp [hga, hgd]
  have step2 : forgetLoop tasks (fuel + 2) [x, y] (s.remove g)
        (out ++ ["forgeting " ++ g]) =
      forgetLoop tasks (fuel + 1) [y] ((s.remove g).remove x)
        ((out ++ ["forgeting " ++ g]) ++ ["forgeting " ++ x]) := by
    rw [show fuel + 2 = (fuel + 1) + 1 from rfl,
      forgetLoop_cons tasks (fuel + 1) x [y] (s.remove g)
        (out ++ ["forgeting " ++ g]) xt hx]
    simp [List.isEmpty_eq_false.mpr hxa]
  have step3 : forgetLoop tasks (fuel + 1) [y] ((s.remove g).remove x)
        ((out ++ ["forgeting " ++ g]) ++ ["forgeting " ++ x]) =
      .ok ((((s.remove g).remove x).remove y),
        (((out ++ ["forgeting " ++ g]) ++ ["forgeting " ++ x]) ++ ["forgeting " ++ y])) := by
    rw [forgetLoop_cons tasks fuel y [] ((s.remove g).remove x)
      ((out ++ ["forgeting " ++ g]) ++ ["forgeting " ++ x]) yt hy]
    simp [List.isEmpty_eq_false.mpr hya, forgetLoop_nil]
  have loop : forgetLoop tasks (fuel + 3) [g] s out =
      .ok ((((s.remove g).remove x).remove y),
        (((out ++ ["forgeting " ++ g]) ++ ["forgeting " ++ x]) ++ ["forgeting " ++ y])) := by
    rw [step1, step2, step3]
  simp [doit_forget, forgetNames, hg, loop]

theorem ignore_gxy_run (tasks : String → Option Task) (g x y : String)
    (gt xt yt : Task) (s : DepStore) (out : List String) (fuel : Nat)
    (hg : tasks g = some gt) (hga : gt.actions = []) (hgd : gt.task_dep = [x, y])
    (hx : tasks x = some xt) (hxa : xt.actions ≠ [])
    (hy : tasks y = some yt) (hya : yt.actions ≠ []) :
    doit_ignore tasks (fuel + 3) [g] s out =
      .ok ((((s.ignore g).ignore x).ignore y).close,
        out ++ ["ignoring " ++ g, "ignoring " ++ x, "ignoring " ++ y]) := by
  have step1 : ignoreLoop tasks (fuel + 3) [g] s out =
      ignoreLoop tasks (fuel + 2) [x, y] (s.ignore g) (out ++ ["ignoring " ++ g]) := by
    rw [show fuel + 3 = (fuel + 2) + 1 from rfl,
      ignoreLoop_cons tasks (fuel + 2) g [] s out gt hg]
    simp [hga, hgd]
  have step2 : ignoreLoop tasks (fuel + 2) [x, y] (s.ignore g)
        (out ++ ["ignoring " ++ g]) =
      ignoreLoop tasks (fuel + 1) [y] ((s.ignore g).ignore x)
        ((out ++ ["ignoring " ++ g]) ++ ["ignoring " ++ x]) := by
    rw [show fuel + 2 = (fuel + 1) + 1 from rfl,
      ignoreLoop_cons tasks (fuel + 1) x [y] (s.ignore g)
        (out ++ ["ignoring " ++ g]) xt hx]
    simp [List.isEmpty_eq_false.mpr hxa]
  have step3 : ignoreLoop tasks (fuel + 1) [y] ((s.ignore g).ignore x)
        ((out ++ ["ignoring " ++ g]) ++ ["ignoring " ++ x]) =
      .ok ((((s.ignore g).ignore x).ignore y),
        (((out ++ ["ignoring " ++ g]) ++ ["ignoring " ++ x]) ++ ["ignoring " ++ y])) := by
    rw [ignoreLoop_cons tasks fuel y [] ((s.ignore g).ignore x)
      ((out ++ ["ignoring " ++ g]) ++ ["ignoring " ++ x]) yt hy]
    simp [List.isEmpty_eq_false.mpr hya, ignoreLoop_nil]
  have loop : ignoreLoop tasks (fuel + 3) [g] s out =
      .ok ((((s.ignore g).ignore x).ignore y),
        (((out ++ ["ignoring " ++ g]) ++ ["ignoring " ++ x]) ++ ["ignoring " ++ y])) := by
    rw [step1, step2, step3]
  simp [doit_ignore, ignoreNames, hg, loop]

theorem forget_leaf_run (tasks : String → Option Task) (l : String) (lt : Task)
    (s : DepStore) (out : List String) (fuel : Nat)
    (hl : tasks l = some lt) (hla : lt.actions ≠ []) :
    doit_forget tasks (fuel + 1) [l] s out =
      .ok ((s.remove l).close, out ++ ["forgeting " ++ l]) := by
  have loop : forgetLoop tasks (fuel + 1) [l] s out =
      .ok (s.remove l, out ++ ["forgeting " ++ l]) := by
    rw [forgetLoop_cons tasks fuel l [] s out lt hl]
    simp [List.isEmpty_eq_false.mpr hla, forgetLoop_nil]
  simp [doit_forget, forgetNames, hl, loop]

/-! ## Concrete instances used by counterexamples and witnesses -/

/-- A fresh (not ignored) record with no fingerprints. -/
def recNew : DepRecord := { fingerprints := [], ignored := false }

/-- A group task `g` with members `x` and `y`. -/
def gTask : Task :=
  { name := "g", actions := [], task_dep := ["x", "y"], file_dep := []
    doc := none, is_subtask := false }

/-- A leaf member task `x`. -/
def xTask : Task :=
  { name := "x", actions := ["ax"], task_dep := [], file_dep := []
    doc := none, is_subtask := false }

/-- A leaf member task `y`. -/
def yTask : Task :=
  { name := "y", actions := ["ay"], task_dep := [], file_dep := []
    doc := none, is_subtask := false }

/-- The task dict of the dodo file holding `g`, `x`, `y`. -/
def tasksGXY : String → Option Task := tasksOf [gTask, xTask, yTask]

/-- A store with one record per task of `tasksGXY`. -/
def storeGXY : DepStore :=
  { records := [("g", recNew), ("x", recNew), ("y", recNew)], trace := [] }

/-- A single leaf task `a`. -/
def aTask : Task :=
  { name := "a", actions := ["aa"], task_dep := [], file_dep := []
    doc := none, is_subtask := false }

/-- The task dict holding only `a`. -/
def tasksA : String → Option Task := tasksOf [aTask]

/-- A store with a record for `a`. -/
def storeA : DepStore := { records := [("a", recNew)], trace := [] }

/-! ## Claim C1 -/

/-- Counterexample for C1: invoking `doit_forget` with the name list
`["a", "bogus"]`, where `a` is a task with a stored record and `bogus` is
unknown, raises the unknown-name command error only after the record of `a`
has already been removed — the error-time store has lost `a`'s record and
its trace shows the removal, refuting "no dependency-store record is removed
\dots before the error is raised, regardless of the position of the
offending name". -/
theorem forget_unknown_midlist_mutates_store :
    doit_forget tasksA 1 ["a", "bogus"] storeA [] =
      .err ("'bogus' is not a task.")
        { records := [], trace := [.removeOp "a"] } ["forgeting a"] ∧
    storeA.records = [("a", recNew)] := by
  constructor
  · decide
  · rfl

/-- Claim C1 (corrected): the unknown-name `InvalidCommand` error is raised
by `doit_forget` / `doit_ignore` when the offending name is reached in the
list, aborting the remainder; names earlier in the list have already been
processed at that point, so the invocation is free of partial state change
only when the offending name comes first — then the store is returned
exactly as it was.  When a valid leaf task precedes the offending name, its
record has already been removed (resp. marked ignored) when the error is
raised. -/
theorem forget_ignore_unknown_name_abort
    (tasks : String → Option Task) (fuel : Nat) (bad : String)
    (rest : List String) (s : DepStore) (out : List String)
    (hbad : tasks bad = none) :
    (doit_forget tasks fuel (bad :: rest) s out =
      .err ("'" ++ bad ++ "' is not a task.") s out) ∧
    (doit_ignore tasks fuel (bad :: rest) s out =
      .err ("'" ++ bad ++ "' is not a task.") s out) ∧
    (∀ v vt, tasks v = some vt → vt.actions ≠ [] →
      doit_forget tasks (fuel + 1) (v :: bad :: rest) s out =
        .err ("'" ++ bad ++ "' is not a task.") (s.remove v)
          (out ++ ["forgeting " ++ v]) ∧
      doit_ignore tasks (fuel + 1) (v :: bad :: rest) s out =
        .err ("'" ++ bad ++ "' is not a task.") (s.ignore v)
          (out ++ ["ignoring " ++ v])) := by
  refine ⟨?_, ?_, ?_⟩
  · simp [doit_forget, forgetNames, hbad]
  · simp [doit_ignore, ignoreNames, hbad]
  · intro v vt hv hva
    have floop : forgetLoop tasks (fuel + 1) [v] s out =
        .ok (s.remove v, out ++ ["forgeting " ++ v]) := by
      rw [forgetLoop_cons tasks fuel v [] s out vt hv]
      simp [List.isEmpty_eq_false.mpr hva, forgetLoop_nil]
    have iloop : ignoreLoop tasks (fuel + 1) [v] s out =
        .ok (s.ignore v, out ++ ["ignoring " ++ v]) := by
      rw [ignoreLoop_cons tasks fuel v [] s out vt hv]
      simp [List.isEmpty_eq_false.mpr hva, ignoreLoop_nil]
    constructor
    · simp [doit_forget, forgetNames, hv, floop, hbad]
    · simp [doit_ignore, ignoreNames, hv, iloop, hbad]

/-- Witness for `forget_ignore_unknown_name_abort` at the concrete dodo file
holding only task `a` and the unknown name `bogus`. -/
theorem forget_ignore_unknown_name_abort_witness :
    tasksA "bogus" = none ∧
    doit_forget tasksA 1 ["bogus"] storeA [] =
      .err ("'" ++ "bogus" ++ "' is not a task.") storeA [] :=
  ⟨by decide,
    (forget_ignore_unknown_name_abort tasksA 1 "bogus" [] storeA [] (by decide)).1⟩

/-! ## Claim C2 -/

/-- Claim C2 (confirmed): on a task list whose dict has a group task `g`
(no actions) with `task_dep` members `x` and `y` (tasks with actions),
`doit_forget ["g"]` removes the store records of `x`, `y` and `g` itself and
of nothing else; `doit_ignore ["g"]` leaves all three names with an ignored
record; and forgetting a leaf task removes exactly that one task's
record. -/
theorem forget_ignore_group_semantics
    (tasks : String → Option Task) (g x y : String) (gt xt yt : Task)
    (s : DepStore) (out : List String) (fuel : Nat)
    (hg : tasks g = some gt) (hga : gt.actions = []) (hgd : gt.task_dep = [x, y])
    (hx : tasks x = some xt) (hxa : xt.actions ≠ [])
    (hy : tasks y = some yt) (hya : yt.actions ≠ []) :
    (doit_forget tasks (fuel + 3) [g] s out =
      .ok ((((s.remove g).remove x).remove y).close,
        out ++ ["forgeting " ++ g, "forgeting " ++ x, "forgeting " ++ y])) ∧
    (∀ p, p ∈ ((((s.remove g).remove x).remove y).close).records ↔
      (p ∈ s.records ∧ p.1 ≠ g ∧ p.1 ≠ x ∧ p.1 ≠ y)) ∧
    (doit_ignore tasks (fuel + 3) [g] s out =
      .ok ((((s.ignore g).ignore x).ignore y).close,
        out ++ ["ignoring " ++ g, "ignoring " ++ x, "ignoring " ++ y])) ∧
    (∀ n, n = g ∨ n = x ∨ n = y →
      ∃ r, ((((s.ignore g).ignore x).ignore y).close).lookup n = some r ∧
        r.ignored = true) ∧
    (∀ l lt, tasks l = some lt → lt.actions ≠ [] →
      doit_forget tasks (fuel + 1) [l] s out =
        .ok ((s.remove l).close, out ++ ["forgeting " ++ l]) ∧
      ∀ p, p ∈ ((s.remove l).close).records ↔ (p ∈ s.records ∧ p.1 ≠ l)) := by
  refine ⟨forget_gxy_run tasks g x y gt xt yt s out fuel hg hga hgd hx hxa hy hya,
    ?_, ignore_gxy_run tasks g x y gt xt yt s out fuel hg hga hgd hx hxa hy hya,
    ?_, ?_⟩
  · intro p
    simp only [DepStore.remove, DepStore.close, List.mem_filter, bne_iff_ne,
      Bool.and_eq_true, decide_eq_true_eq]
    tauto
  · intro n hn
    rw [close_lookup]
    rcases hn with rfl | rfl | rfl
    · exact ignore_keeps_ignored _ n y (ignore_keeps_ignored _ n x (ignore_lookup_self s n))
    · exact ignore_keeps_ignored _ n y (ignore_lookup_self (s.ignore g) n)
    · exact ignore_lookup_self ((s.ignore g).ignore x) n
  · intro l lt hl hla
    refine ⟨forget_leaf_run tasks l lt s out fuel hl hla, ?_⟩
    intro p
    simp [DepStore.remove, DepStore.close, List.mem_filter, bne_iff_ne]

/-- Witness for `forget_ignore_group_semantics` at the concrete dodo file
`tasksGXY` and store `storeGXY`. -/
theorem forget_ignore_group_semantics_witness :
    tasksGXY "g" = some gTask ∧ gTask.actions = [] ∧ gTask.task_dep = ["x", "y"] ∧
    tasksGXY "x" = some xTask ∧ xTask.actions ≠ [] ∧
    tasksGXY "y" = some yTask ∧ yTask.actions ≠ [] ∧
    doit_forget tasksGXY (0 + 3) ["g"] storeGXY [] =
      .ok ((((storeGXY.remove "g").remove "x").remove "y").close,
        [] ++ ["forgeting " ++ "g", "forgeting " ++ "x", "forgeting " ++ "y"]) :=
  ⟨by decide, rfl, rfl, by decide, by decide, by decide, by decide,
    (forget_ignore_group_semantics tasksGXY "g" "x" "y" gTask xTask yTask
      storeGXY [] 0 (by decide) rfl rfl (by decide) (by decide) (by decide)
      (by decide)).1⟩

/-! ## Claim C3 -/

/-- Counterexample for C3: forgetting the group `g` with members `x`, `y`
produces the store-operation trace `[remove g, remove x, remove y, close]` —
the group's own record is removed FIRST, not after its members', refuting
"the group's own dependency-store record is removed only after its members'
records". -/
theorem forget_group_order_counterexample :
    doit_forget tasksGXY 3 ["g"] storeGXY [] =
      .ok ({ records := []
             trace := [.removeOp "g", .removeOp "x", .removeOp "y", .closeOp] },
        ["forgeting g", "forgeting x", "forgeting y"]) ∧
    ¬ (([StoreOp.removeOp "g", .removeOp "x", .removeOp "y",
         .closeOp].indexOf (StoreOp.removeOp "x") <
        [StoreOp.removeOp "g", .removeOp "x", .removeOp "y",
         .closeOp].indexOf (StoreOp.removeOp "g"))) := by
  constructor
  · decide
  · decide

/-- Claim C3 (corrected): `doit_forget` traverses a group task's `task_dep`
members breadth-first with the same work-list rule as Selector expansion,
but each popped name's record is removed at pop time, so the group's own
record is removed first and its members' records after it: the trace is
`remove g, remove x, remove y`, followed by the `close`. -/
theorem forget_group_removal_order
    (tasks : String → Option Task) (g x y : String) (gt xt yt : Task)
    (s : DepStore) (out : List String) (fuel : Nat)
    (hg : tasks g = some gt) (hga : gt.actions = []) (hgd : gt.task_dep = [x, y])
    (hx : tasks x = some xt) (hxa : xt.actions ≠ [])
    (hy : tasks y = some yt) (hya : yt.actions ≠ []) :
    ∃ s', doit_forget tasks (fuel + 3) [g] s out =
        .ok (s', out ++ ["forgeting " ++ g, "forgeting " ++ x, "forgeting " ++ y]) ∧
      s'.trace = s.trace ++ [.removeOp g, .removeOp x, .removeOp y, .closeOp] := by
  refine ⟨_, forget_gxy_run tasks g x y gt xt yt s out fuel hg hga hgd hx hxa hy hya, ?_⟩
  simp [DepStore.remove, DepStore.close]

/-- Witness for `forget_group_removal_order` at the concrete dodo file
`tasksGXY` and store `storeGXY`. -/
theorem forget_group_removal_order_witness :
    tasksGXY "g" = some gTask ∧
    ∃ s', doit_forget tasksGXY (0 + 3) ["g"] storeGXY [] =
        .ok (s', [] ++ ["forgeting " ++ "g", "forgeting " ++ "x", "forgeting " ++ "y"]) ∧
      s'.trace = storeGXY.trace ++ [.removeOp "g", .removeOp "x", .removeOp "y", .closeOp] :=
  ⟨by decide,
    forget_group_removal_order tasksGXY "g" "x" "y" gTask xTask yTask
      storeGXY [] 0 (by decide) rfl rfl (by decide) (by decide) (by decide)
      (by decide)⟩

/-! ## Claim C5 -/

theorem remove_closeCount (s : DepStore) (n : String) :
    (s.remove n).trace.count .closeOp = s.trace.count .closeOp := by
  simp [DepStore.remove, List.count_append, List.count_cons, List.count_nil,
    show (StoreOp.removeOp n == StoreOp.closeOp) = false from rfl]

theorem ignore_closeCount (s : DepStore) (n : String) :
    (s.ignore n).trace.count .closeOp = s.trace.count .closeOp := by
  simp [DepStore.ignore, List.count_append, List.count_cons, List.count_nil,
    show (StoreOp.ignoreOp n == StoreOp.closeOp) = false from rfl]

theorem forgetNames_nil (tasks : String → Option Task) (fuel : Nat)
    (s : DepStore) (out : List String) :
    forgetNames tasks fuel [] s out = .ok (s, out) := rfl

theorem forgetNames_cons_missing (tasks : String → Option Task) (fuel : Nat)
    (n : String) (rest : List String) (s : DepStore) (out : List String)
    (h : tasks n = none) :
    forgetNames tasks fuel (n :: rest) s out =
      .err ("'" ++ n ++ "' is not a task.") s out := by
  simp [forgetNames, h]

theorem forgetNames_cons (tasks : String → Option Task) (fuel : Nat)
    (n : String) (rest : List String) (s : DepStore) (out : List String)
    (t : Task) (h : tasks n = some t) :
    forgetNames tasks fuel (n :: rest) s out =
      match forgetLoop tasks fuel [n] s out with
      | .ok (s2, o2) => forgetNames tasks fuel rest s2 o2
      | r => r := by
  simp [forgetNames, h]

theorem ignoreNames_nil (tasks : String → Option Task) (fuel : Nat)
    (s : DepStore) (out : List String) :
    ignoreNames tasks fuel [] s out = .ok (s, out) := rfl

theorem ignoreNames_cons_missing (tasks : String → Option Task) (fuel : Nat)
    (n : String) (rest : List String) (s : DepStore) (out : List String)
    (h : tasks n = none) :
    ignoreNames tasks fuel (n :: rest) s out =
      .err ("'" ++ n ++ "' is not a task.") s out := by
  simp [ignoreNames, h]

theorem ignoreNames_cons (tasks : String → Option Task) (fuel : Nat)
    (n : String) (rest : List String) (s : DepStore) (out : List String)
    (t : Task) (h : tasks n = some t) :
    ignoreNames tasks fuel (n :: rest) s out =
      match ignoreLoop tasks fuel [n] s out with
      | .ok (s2, o2) => ignoreNames tasks fuel rest s2 o2
      | r => r := by
  simp [ignoreNames, h]

theorem forgetLoop_closeCount (tasks : String → Option Task) :
    ∀ (fuel : Nat) (wl : List String) (s : DepStore) (out : List String),
    (∀ s' o', forgetLoop tasks fuel wl s out = .ok (s', o') →
      s'.trace.count .closeOp = s.trace.count .closeOp) ∧
    (∀ m s' o', forgetLoop tasks fuel wl s out = .err m s' o' →
      s'.trace.count .closeOp = s.trace.count .closeOp) := by
  intro fuel
  induction fuel with
  | zero =>
    intro wl s out
    cases wl with
    | nil =>
      refine ⟨?_, ?_⟩
      · intro s' o' h
        rw [forgetLoop_nil] at h
        cases h
        rfl
      · intro m s' o' h
        rw [forgetLoop_nil] at h
        cases h
    | cons n rest =>
      have h0 : forgetLoop tasks 0 (n :: rest) s out = CmdRes.nofuel := rfl
      refine ⟨?_, ?_⟩
      · intro s' o' h
        rw [h0] at h
        cases h
      · intro m s' o' h
        rw [h0] at h
        cases h
  | succ f ih =>
    intro wl s out
    cases wl with
    | nil =>
      refine ⟨?_, ?_⟩
      · intro s' o' h
        rw [forgetLoop_nil] at h
        cases h
        rfl
      · intro m s' o' h
        rw [forgetLoop_nil] at h
        cases h
    | cons n rest =>
      cases hn : tasks n with
      | none =>
        refine ⟨?_, ?_⟩
        · intro s' o' h
          rw [forgetLoop_cons_missing tasks f n rest s out hn] at h
          cases h
        · intro m s' o' h
          rw [forgetLoop_cons_missing tasks f n rest s out hn] at h
          cases h
          rfl
      | some t =>
        refine ⟨?_, ?_⟩
        · intro s' o' h
          rw [forgetLoop_cons tasks f n rest s out t hn] at h
          rw [(ih _ _ _).1 _ _ h, remove_closeCount]
        · intro m s' o' h
          rw [forgetLoop_cons tasks f n rest s out t hn] at h
          rw [(ih _ _ _).2 _ _ _ h, remove_closeCount]

theorem ignoreLoop_closeCount (tasks : String → Option Task) :
    ∀ (fuel : Nat) (wl : List String) (s : DepStore) (out : List String),
    (∀ s' o', ignoreLoop tasks fuel wl s out = .ok (s', o') →
      s'.trace.count .closeOp = s.trace.count .closeOp) ∧
    (∀ m s' o', ignoreLoop tasks fuel wl s out = .err m s' o' →
      s'.trace.count .closeOp = s.trace.count .closeOp) := by
  intro fuel
  induction fuel with
  | zero =>
    intro wl s out
    cases wl with
    | nil =>
      refine ⟨?_, ?_⟩
      · intro s' o' h
        rw [ignoreLoop_nil] at h
        cases h
        rfl
      · intro m s' o' h
        rw [ignoreLoop_nil] at h
        cases h
    | cons n rest =>
      have h0 : ignoreLoop tasks 0 (n :: rest) s out = CmdRes.nofuel := rfl
      refine ⟨?_, ?_⟩
      · intro s' o' h
        rw [h0] at h
        cases h
      · intro m s' o' h
        rw [h0] at h
        cases h
  | succ f ih =>
    intro wl s out
    cases wl with
    | nil =>
      refine ⟨?_, ?_⟩
      · intro s' o' h
        rw [ignoreLoop_nil] at h
        cases h
        rfl
      · intro m s' o' h
        rw [ignoreLoop_nil] at h
        cases h
    | cons n rest =>
      cases hn : tasks n with
      | none =>
        refine ⟨?_, ?_⟩
        · intro s' o' h
          rw [ignoreLoop_cons_missing tasks f n rest s out hn] at h
          cases h
        · intro m s' o' h
          rw [ignoreLoop_cons_missing tasks f n rest s out hn] at h
          cases h
          rfl
      | some t =>
        refine ⟨?_, ?_⟩
        · intro s' o' h
          rw [ignoreLoop_cons tasks f n rest s out t hn] at h
          rw [(ih _ _ _).1 _ _ h, ignore_closeCount]
        · intro m s' o' h
          rw [ignoreLoop_cons tasks f n rest s out t hn] at h
          rw [(ih _ _ _).2 _ _ _ h, ignore_closeCount]

theorem forgetNames_closeCount (tasks : String → Option Task) (fuel : Nat) :
    ∀ (names : List String) (s : DepStore) (out : List String),
    (∀ s' o', forgetNames tasks fuel names s out = .ok (s', o') →
      s'.trace.count .closeOp = s.trace.count .closeOp) ∧
    (∀ m s' o', forgetNames tasks fuel names s out = .err m s' o' →
      s'.trace.count .closeOp = s.trace.count .closeOp) := by
  intro names
  induction names with
  | nil =>
    intro s out
    refine ⟨?_, ?_⟩
    · intro s' o' h
      rw [forgetNames_nil] at h
      cases h
      rfl
    · intro m s' o' h
      rw [forgetNames_nil] at h
      cases h
  | cons n rest ih =>
    intro s out
    cases hn : tasks n with
    | none =>
      refine ⟨?_, ?_⟩
      · intro s' o' h
        rw [forgetNames_cons_missing tasks fuel n rest s out hn] at h
        cases h
      · intro m s' o' h
        rw [forgetNames_cons_missing tasks fuel n rest s out hn] at h
        cases h
        rfl
    | some t =>
      refine ⟨?_, ?_⟩
      · intro s' o' h
        rw [forgetNames_cons tasks fuel n rest s out t hn] at h
        revert h
        cases hl : forgetLoop tasks fuel [n] s out with
        | ok a =>
          obtain ⟨s2, o2⟩ := a
          intro h
          rw [(ih _ _).1 _ _ h,
            (forgetLoop_closeCount tasks fuel [n] s out).1 _ _ hl]
        | err m2 s2 o2 =>
          intro h
          cases h
        | nofuel =>
          intro h
          cases h
      · intro m s' o' h
        rw [forgetNames_cons tasks fuel n rest s out t hn] at h
        revert h
        cases hl : forgetLoop tasks fuel [n] s out with
        | ok a =>
          obtain ⟨s2, o2⟩ := a
          intro h
          rw [(ih _ _).2 _ _ _ h,
            (forgetLoop_closeCount tasks fuel [n] s out).1 _ _ hl]
        | err m2 s2 o2 =>
          intro h
          cases h
          exact (forgetLoop_closeCount tasks fuel [n] s out).2 _ _ _ hl
        | nofuel =>
          intro h
          cases h

theorem ignoreNames_closeCount (tasks : String → Option Task) (fuel : Nat) :
    ∀ (names : List String) (s : DepStore) (out : List String),
    (∀ s' o', ignoreNames tasks fuel names s out = .ok (s', o') →
      s'.trace.count .closeOp = s.trace.count .closeOp) ∧
    (∀ m s' o', ignoreNames tasks fuel names s out = .err m s' o' →
      s'.trace.count .closeOp = s.trace.count .closeOp) := by
  intro names
  induction names with
  | nil =>
    intro s out
    refine ⟨?_, ?_⟩
    · intro s' o' h
      rw [ignoreNames_nil] at h
      cases h
      rfl
    · intro m s' o' h
      rw [ignoreNames_nil] at h
      cases h
  | cons n rest ih =>
    intro s out
    cases hn : tasks n with
    | none =>
      refine ⟨?_, ?_⟩
      · intro s' o' h
        rw [ignoreNames_cons_missing tasks fuel n rest s out hn] at h
        cases h
      · intro m s' o' h
        rw [ignoreNames_cons_missing tasks fuel n rest s out hn] at h
        cases h
        rfl
    | some t =>
      refine ⟨?_, ?_⟩
      · intro s' o' h
        rw [ignoreNames_cons tasks fuel n rest s out t hn] at h
        revert h
        cases hl : ignoreLoop tasks fuel [n] s out with
        | ok a =>
          obtain ⟨s2, o2⟩ := a
          intro h
          rw [(ih _ _).1 _ _ h,
            (ignoreLoop_closeCount tasks fuel [n] s out).1 _ _ hl]
        | err m2 s2 o2 =>
          intro h
          cases h
        | nofuel =>
          intro h
          cases h
      · intro m s' o' h
        rw [ignoreNames_cons tasks fuel n rest s out t hn] at h
        revert h
        cases hl : ignoreLoop tasks fuel [n] s out with
        | ok a =>
          obtain ⟨s2, o2⟩ := a
          intro h
          rw [(ih _ _).2 _ _ _ h,
            (ignoreLoop_closeCount tasks fuel [n] s out).1 _ _ hl]
        | err m2 s2 o2 =>
          intro h
          cases h
          exact (ignoreLoop_closeCount tasks fuel [n] s out).2 _ _ _ hl
        | nofuel =>
          intro h
          cases h

/-- Counterexample for C5: on the error path of `doit_forget` — the unknown
name `bogus` reached after the leaf `a` was forgotten — the raised
`InvalidCommand` propagates without `close()` ever being called: the
error-time trace `[remove a]` contains no close operation, refuting
"close() is called on every exit path \dots including when the
unknown-task-name command error is raised". -/
theorem forget_error_skips_close :
    doit_forget tasksA 1 ["a", "bogus"] storeA [] =
      .err ("'bogus' is not a task.")
        { records := [], trace := [.removeOp "a"] } ["forgeting a"] ∧
    StoreOp.closeOp ∉ [StoreOp.removeOp "a"] := by
  constructor
  · decide
  · simp

/-- Claim C5 (corrected): `close()` is called — and is the final store
operation — on every NORMAL completion of `doit_forget` and of `doit_ignore`
with a non-empty name list; `doit_ignore` with an empty list returns before
a store manager exists, and on the exception path (unknown task name) the
error propagates without any `close()`: the number of close operations in
the trace is unchanged from entry. -/
theorem close_on_normal_exit_only :
    (∀ (tasks : String → Option Task) (fuel : Nat) (names : List String)
      (s : DepStore) (out : List String) (s' : DepStore) (out' : List String),
      doit_forget tasks fuel names s out = .ok (s', out') →
      s'.trace.getLast? = some .closeOp) ∧
    (∀ (tasks : String → Option Task) (fuel : Nat) (names : List String)
      (s : DepStore) (out : List String) (s' : DepStore) (out' : List String),
      names ≠ [] → doit_ignore tasks fuel names s out = .ok (s', out') →
      s'.trace.getLast? = some .closeOp) ∧
    (∀ (tasks : String → Option Task) (fuel : Nat) (s : DepStore)
      (out : List String),
      doit_ignore tasks fuel [] s out =
        .ok (s, out ++ ["You cant ignore all tasks! Please select a task."])) ∧
    (∀ (tasks : String → Option Task) (fuel : Nat) (names : List String)
      (s : DepStore) (out : List String) (m : String) (s' : DepStore)
      (out' : List String),
      doit_forget tasks fuel names s out = .err m s' out' →
      s'.trace.count .closeOp = s.trace.count .closeOp) ∧
    (∀ (tasks : String → Option Task) (fuel : Nat) (names : List String)
      (s : DepStore) (out : List String) (m : String) (s' : DepStore)
      (out' : List String),
      doit_ignore tasks fuel names s out = .err m s' out' →
      s'.trace.count .closeOp = s.trace.count .closeOp) := by
  refine ⟨?_, ?_, ?_, ?_, ?_⟩
  · intro tasks fuel names s out s' out' h
    by_cases hne : names.isEmpty
    · simp only [doit_forget, hne, if_true] at h
      cases h
      simp [DepStore.close, DepStore.remove_all]
    · simp only [doit_forget, hne, if_false] at h
      revert h
      cases hfn : forgetNames tasks fuel names s out <;> intro h
      · cases h
        simp [DepStore.close]
      · cases h
      · cases h
  · intro tasks fuel names s out s' out' hne h
    have hne2 : names.isEmpty = false := by
      cases names with
      | nil => exact absurd rfl hne
      | cons a l => rfl
    simp only [doit_ignore, hne2, if_false] at h
    revert h
    cases hfn : ignoreNames tasks fuel names s out <;> intro h
    · cases h
      simp [DepStore.close]
    · cases h
    · cases h
  · intro tasks fuel s out
    rfl
  · intro tasks fuel names s out m s' out' h
    by_cases hne : names.isEmpty
    · simp only [doit_forget, hne, if_true] at h
      cases h
    · simp only [doit_forget, hne, if_false] at h
      revert h
      cases hfn : forgetNames tasks fuel names s out <;> intro h
      · cases h
      · cases h
        exact (forgetNames_closeCount tasks fuel names s out).2 _ _ _ hfn
      · cases h
  · intro tasks fuel names s out m s' out' h
    by_cases hne : names.isEmpty
    · simp only [doit_ignore, hne, if_true] at h
      cases h
    · simp only [doit_ignore, hne, if_false] at h
      revert h
      cases hfn : ignoreNames tasks fuel names s out <;> intro h
      · cases h
      · cases h
        exact (ignoreNames_closeCount tasks fuel names s out).2 _ _ _ hfn
      · cases h

/-- Witness for `close_on_normal_exit_only`: a normal `doit_forget`
completion (forget-all) whose trace ends in the close operation. -/
theorem close_on_normal_exit_only_witness :
    doit_forget tasksA 1 [] storeA [] =
      .ok ({ records := [], trace := [.removeAllOp, .closeOp] },
        ["forgeting all tasks"]) ∧
    (({ records := [], trace := [.removeAllOp, .closeOp] } :
        DepStore)).trace.getLast? = some .closeOp :=
  ⟨by decide,
    close_on_normal_exit_only.1 tasksA 1 [] storeA []
      { records := [], trace := [.removeAllOp, .closeOp] }
      ["forgeting all tasks"] (by decide)⟩

/-! ## Claim C6 -/

/-- Counterexample for C6: when task selection itself fails (an unknown task
name, per §4.2 selection raises "not a task" before `doit_run` reaches the
reporter check), an invocation whose reporter name `missing` is NOT in the
registry surfaces the selection error, not a command error naming the
offending reporter — refuting "for every invocation \dots a user-facing
command error naming the offending reporter is raised". -/
theorem run_selection_error_shadows_reporter :
    doit_run ["default"] (.error "'bogus' is not a task.") "missing" =
      .selErr "'bogus' is not a task." ∧
    ("missing" ∉ (["default"] : List String)) ∧
    ¬ ∃ n m, doit_run ["default"] (.error "'bogus' is not a task.") "missing" =
      .badReporter n m := by
  refine ⟨rfl, by simp, ?_⟩
  rintro ⟨n, m, h⟩
  simp [doit_run] at h

/-- Claim C6 (corrected): provided task selection succeeds, an unknown
reporter name makes `doit_run` raise the `InvalidCommand` error naming the
offending reporter before the runner is entered; and whatever the selection
outcome, an invocation with an unknown reporter never enters the runner (no
task's actions execute). -/
theorem run_unknown_reporter_aborts
    (reporters : List String) (r : String) (hr : r ∉ reporters) :
    (∀ plan : List Task,
      doit_run reporters (.ok plan) r =
        .badReporter r ("No reporter named '" ++ r ++
          "'.\nType 'doit help run' to see a list of available reporters.")) ∧
    (∀ (selection : Except String (List Task)) (plan : List Task) (rep : String),
      doit_run reporters selection r ≠ .ran plan rep) := by
  constructor
  · intro plan
    simp [doit_run, hr]
  · intro selection plan rep
    cases selection with
    | error e => simp [doit_run]
    | ok p => simp [doit_run, hr]

/-- Witness for `run_unknown_reporter_aborts` at the registry `["default"]`
and the unknown reporter name `missing`. -/
theorem run_unknown_reporter_aborts_witness :
    ("missing" ∉ (["default"] : List String)) ∧
    doit_run ["default"] (.ok []) "missing" =
      .badReporter "missing" ("No reporter named '" ++ "missing" ++
        "'.\nType 'doit help run' to see a list of available reporters.") :=
  ⟨by simp, (run_unknown_reporter_aborts ["default"] "missing" (by simp)).1 []⟩

/-! ## Claim C7 -/

theorem lookup_setFps_absent (l : List (String × DepRecord)) (n : String)
    (fps : List (String × String)) (h : l.lookup n = none) :
    (setFps l n fps).lookup n = some { fingerprints := fps, ignored := false } := by
  induction l with
  | nil => simp [setFps, List.lookup]
  | cons p rest ih =>
    by_cases hp : p.1 = n
    · exfalso
      rw [List.lookup] at h
      simp [hp, beq_iff_eq] at h
    · rw [List.lookup] at h
      have hb : (n == p.1) = false := beq_false_of_ne (fun hh => hp hh.symm)
      rw [hb] at h
      simp only [setFps, if_neg hp, List.lookup, hb]
      exact ih h

theorem currentFps_lookup (fp : String → Option String) (fd : List String)
    (fl : String) (cur : String) (hcur : fp fl = some cur) (hmem : fl ∈ fd) :
    ((fd.filterMap fun f2 => (fp f2).map (fun v => (f2, v))).lookup fl) =
      some cur := by
  induction fd with
  | nil => cases hmem
  | cons f0 rest ih =>
    by_cases h0 : f0 = fl
    · subst h0
      simp [List.filterMap_cons, hcur, List.lookup]
    · have hmem2 : fl ∈ rest := by
        cases hmem with
        | head => exact absurd rfl h0
        | tail _ hm => exact hm
      cases hf0 : fp f0 with
      | none => simpa [List.filterMap_cons, hf0] using ih hmem2
      | some v =>
        have hb : (fl == f0) = false := beq_false_of_ne (fun hh => h0 hh.symm)
        simp only [List.filterMap_cons, hf0, Option.map_some, List.lookup, hb]
        exact ih hmem2

/-- Claim C7 (confirmed): with `print_status` set, the printed task line is
the status letter followed by a space and the task string, where the letter
is `statusMap` of the store status (`I`/`U`/`R` for ignore, up-to-date,
run); a task with no persisted record gets `R`; after a commit of the
freshly computed fingerprints onto a fresh record with unchanged files (and
no task deps) it gets `U`; after an explicit ignore it gets `I` regardless
of the file state. -/
theorem list_status_letter_mapping
    (tasks : String → Option Task) (fp : String → Option String)
    (s : DepStore) (sfuel f : Nat) (t : Task) (printDoc : Bool) :
    (listPrintTask tasks fp s sfuel printDoc true false (f + 1) t =
      some [statusMap (getStatus tasks fp s sfuel t) ++ " " ++ taskStr printDoc t]) ∧
    (s.lookup t.name = none → getStatus tasks fp s (sfuel + 1) t = .run) ∧
    (∀ fp2 : String → Option String,
      getStatus tasks fp2 (s.ignore t.name) (sfuel + 1) t = .ignore) ∧
    (t.task_dep = [] → s.lookup t.name = none →
      (∀ fl ∈ t.file_dep, (fp fl).isSome) →
      getStatus tasks fp (s.commit t.name (currentFps fp t)) (sfuel + 1) t =
        .upToDate) := by
  refine ⟨?_, ?_, ?_, ?_⟩
  · simp [listPrintTask]
  · intro h
    simp [getStatus, h]
  · intro fp2
    obtain ⟨r, hr, hig⟩ := ignore_lookup_self s t.name
    simp [getStatus, hr, hig]
  · intro htd hnone hfp
    have hlook : (s.commit t.name (currentFps fp t)).lookup t.name =
        some { fingerprints := currentFps fp t, ignored := false } :=
      lookup_setFps_absent s.records t.name (currentFps fp t) hnone
    have hA : ∀ fl ∈ t.file_dep,
        (match fp fl, (currentFps fp t).lookup fl with
        | some cur, some st => cur == st
        | _, _ => false) = true := by
      intro fl hfl
      obtain ⟨cur, hcur⟩ := Option.isSome_iff_exists.mp (hfp fl hfl)
      rw [hcur, currentFps, currentFps_lookup fp t.file_dep fl cur hcur hfl]
      simp
    simp only [getStatus, hlook, htd, List.all_nil, Bool.and_true]
    simp only [List.all_eq_true]
    rw [if_neg (by simp : ¬(false = true)), if_pos hA]

/-- The dodo file for the C7 witness: one task `t` reading the file `f`. -/
def tTask : Task :=
  { name := "t", actions := ["at"], task_dep := [], file_dep := ["f"]
    doc := none, is_subtask := false }

/-- The task dict holding only `t`. -/
def tasksW : String → Option Task := tasksOf [tTask]

/-- Current filesystem fingerprints for the C7 witness: `f` hashes to `h1`. -/
def fpW : String → Option String := fun fl => if fl = "f" then some "h1" else none

/-- An empty store. -/
def sEmpty : DepStore := { records := [], trace := [] }

/-- Witness for `list_status_letter_mapping`: the fresh/committed/ignored
scenarios evaluated on the one-task dodo file. -/
theorem list_status_letter_mapping_witness :
    (sEmpty.lookup tTask.name = none) ∧ (tTask.task_dep = []) ∧
    (∀ fl ∈ tTask.file_dep, (fpW fl).isSome) ∧
    (getStatus tasksW fpW sEmpty (0 + 1) tTask = .run) ∧
    (getStatus tasksW fpW (sEmpty.ignore tTask.name) (0 + 1) tTask = .ignore) ∧
    (getStatus tasksW fpW (sEmpty.commit tTask.name (currentFps fpW tTask))
      (0 + 1) tTask = .upToDate) :=
  ⟨rfl, rfl, by decide,
    (list_status_letter_mapping tasksW fpW sEmpty 0 0 tTask false).2.1 rfl,
    (list_status_letter_mapping tasksW fpW sEmpty 0 0 tTask false).2.2.1 fpW,
    (list_status_letter_mapping tasksW fpW sEmpty 0 0 tTask false).2.2.2 rfl rfl
      (by decide)⟩

/-! ## Claim C8 -/

/-- Claim C8 (confirmed): the watcher `doit_auto` builds from the selected
plan fires `handle_event` exactly for the events whose pathname is an
absolutized `file_dep` of some task of the plan (events for other files in a
watched directory are filtered out by `_handle`); its directory watches are
exactly the distinct parent directories of the watched files, with no
duplicates. -/
theorem auto_watch_set_and_filter (abspath dirname : String → String)
    (plan : List Task) :
    (∀ p, (doitAutoWatcher abspath dirname plan).handles p = true ↔
      ∃ t ∈ plan, ∃ f2 ∈ t.file_dep, abspath f2 = p) ∧
    (∀ d, d ∈ (doitAutoWatcher abspath dirname plan).watch_dirs ↔
      ∃ t ∈ plan, ∃ f2 ∈ t.file_dep, dirname (abspath f2) = d) ∧
    (doitAutoWatcher abspath dirname plan).file_list.Nodup ∧
    (doitAutoWatcher abspath dirname plan).watch_dirs.Nodup := by
  refine ⟨?_, ?_, ?_, ?_⟩
  · intro p
    rw [FMWatcher.handles, List.elem_iff]
    simp only [doitAutoWatcher, mkWatcher, watchFiles, List.mem_dedup,
      List.mem_map, List.mem_flatMap]
    tauto
  · intro d
    simp only [doitAutoWatcher, mkWatcher, watchFiles, List.mem_dedup,
      List.mem_map, List.mem_flatMap]
    constructor
    · rintro ⟨w2, ⟨f1, ⟨t, ht, hf⟩, rfl⟩, rfl⟩
      exact ⟨t, ht, f1, hf, rfl⟩
    · rintro ⟨t, ht, f2, hf, rfl⟩
      exact ⟨abspath f2, ⟨f2, ⟨t, ht, hf⟩, rfl⟩, rfl⟩
  · exact List.nodup_dedup _
  · exact List.nodup_dedup _

/-! ## Claim C10 -/

/-- A copy of a task with its `is_subtask` flag replaced. -/
def setSub (flip : String → Bool) (t : Task) : Task :=
  { t with is_subtask := flip t.name }

/-- The task dict with every task's `is_subtask` flag replaced according to
`flip`. -/
def flipTasks (flip : String → Bool) (tasks : String → Option Task) :
    String → Option Task :=
  fun n => (tasks n).map (setSub flip)

theorem getStatus_flip (flip : String → Bool) (tasks : String → Option Task)
    (fp : String → Option String) (s : DepStore) :
    ∀ (f : Nat) (t : Task),
    getStatus (flipTasks flip tasks) fp s f (setSub flip t) =
      getStatus tasks fp s f t := by
  intro f
  induction f with
  | zero => intro t; rfl
  | succ f ih =>
    intro t
    have hdeps : ∀ l : List String,
        (l.all fun d =>
          match flipTasks flip tasks d with
          | some td => getStatus (flipTasks flip tasks) fp s f td == .upToDate
          | none => false) =
        (l.all fun d =>
          match tasks d with
          | some td => getStatus tasks fp s f td == .upToDate
          | none => false) := by
      intro l
      induction l with
      | nil => rfl
      | cons d rest ihl =>
        simp only [List.all_cons, ihl]
        congr 1
        cases hd : tasks d with
        | none => simp [flipTasks, hd]
        | some td =>
          simp only [flipTasks, hd, Option.map_some]
          exact (congrArg (fun st => st == Status.upToDate) (ih td))
    show (match s.lookup t.name with
      | none => Status.run
      | some r =>
        if r.ignored then Status.ignore
        else if (t.file_dep.all fun fl =>
              match fp fl, r.fingerprints.lookup fl with
              | some cur, some st => cur == st
              | _, _ => false)
            && (t.task_dep.all fun d =>
              match flipTasks flip tasks d with
              | some td => getStatus (flipTasks flip tasks) fp s f td == .upToDate
              | none => false)
        then Status.upToDate else Status.run) = getStatus tasks fp s (f + 1) t
    rw [hdeps]
    rfl

theorem listPrintTask_flip (flip : String → Bool) (tasks : String → Option Task)
    (fp : String → Option String) (s : DepStore) (sfuel : Nat)
    (pd ps psub : Bool) :
    ∀ (f : Nat) (t : Task),
    listPrintTask (flipTasks flip tasks) fp s sfuel pd ps psub f (setSub flip t) =
      listPrintTask tasks fp s sfuel pd ps psub f t := by
  intro f
  induction f with
  | zero => intro t; rfl
  | succ f ih =>
    intro t
    have hsubs : ∀ l : List String,
        listPrintSubs (listPrintTask (flipTasks flip tasks) fp s sfuel pd ps psub f)
          (flipTasks flip tasks) t.name l =
        listPrintSubs (listPrintTask tasks fp s sfuel pd ps psub f)
          tasks t.name l := by
      intro l
      induction l with
      | nil => rfl
      | cons sname rest ihl =>
        by_cases hsw : sname.startsWith t.name
        · cases hd : tasks sname with
          | none =>
            have hfd : flipTasks flip tasks sname = none := by
              simp [flipTasks, hd]
            simp [listPrintSubs, hsw, hfd, hd]
          | some t' =>
            have hfd : flipTasks flip tasks sname = some (setSub flip t') := by
              simp [flipTasks, hd]
            simp only [listPrintSubs, hsw, if_true, hfd, hd]
            rw [ih t', ihl]
        · simp only [listPrintSubs, hsw, if_false]
          exact ihl
    have hline : (if ps then
          statusMap (getStatus (flipTasks flip tasks) fp s sfuel (setSub flip t)) ++
            " " ++ taskStr pd (setSub flip t)
        else taskStr pd (setSub flip t)) =
        (if ps then
          statusMap (getStatus tasks fp s sfuel t) ++ " " ++ taskStr pd t
        else taskStr pd t) := by
      rw [getStatus_flip]
      rfl
    show (if psub then
        match listPrintSubs
            (listPrintTask (flipTasks flip tasks) fp s sfuel pd ps psub f)
            (flipTasks flip tasks) (setSub flip t).name (setSub flip t).task_dep with
        | some subLines =>
          some ((if ps then
            statusMap (getStatus (flipTasks flip tasks) fp s sfuel (setSub flip t)) ++
              " " ++ taskStr pd (setSub flip t)
          else taskStr pd (setSub flip t)) :: subLines)
        | none => none
      else some [(if ps then
          statusMap (getStatus (flipTasks flip tasks) fp s sfuel (setSub flip t)) ++
            " " ++ taskStr pd (setSub flip t)
        else taskStr pd (setSub flip t))]) =
      listPrintTask tasks fp s sfuel pd ps psub (f + 1) t
    rw [hline]
    show (if psub then
        match listPrintSubs
            (listPrintTask (flipTasks flip tasks) fp s sfuel pd ps psub f)
            (flipTasks flip tasks) t.name t.task_dep with
        | some subLines =>
          some ((if ps then
            statusMap (getStatus tasks fp s sfuel t) ++ " " ++ taskStr pd t
          else taskStr pd t) :: subLines)
        | none => none
      else some [(if ps then
          statusMap (getStatus tasks fp s sfuel t) ++ " " ++ taskStr pd t
        else taskStr pd t)]) =
      listPrintTask tasks fp s sfuel pd ps psub (f + 1) t
    rw [hsubs]
    rfl

/-- Claim C10 (confirmed): in `_list_print_task` with `print_subtasks` set,
the entries of `task_dep` processed recursively under a task are exactly
those whose name starts with the task's name (the loop's output depends only
on that prefix-filtered sublist), and the whole printer output is invariant
under arbitrary reassignment of every task's `is_subtask` flag — membership
is decided by the name-prefix test alone. -/
theorem list_subtask_name_filter :
    (∀ (rec : Task → Option (List String)) (tasks : String → Option Task)
      (pname : String) (deps : List String),
      listPrintSubs rec tasks pname deps =
        listPrintSubs rec tasks pname
          (deps.filter (fun sname => sname.startsWith pname))) ∧
    (∀ (flip : String → Bool) (tasks : String → Option Task)
      (fp : String → Option String) (s : DepStore) (sfuel : Nat)
      (pd ps psub : Bool) (f : Nat) (t : Task),
      listPrintTask (flipTasks flip tasks) fp s sfuel pd ps psub f (setSub flip t) =
        listPrintTask tasks fp s sfuel pd ps psub f t) := by
  constructor
  · intro rec tasks pname deps
    induction deps with
    | nil => rfl
    | cons sname rest ih =>
      by_cases hsw : sname.startsWith pname
      · rw [List.filter_cons_of_pos (by simpa using hsw)]
        simp only [listPrintSubs, hsw, if_true]
        rw [ih]
      · rw [List.filter_cons_of_neg (by simpa using hsw)]
        simp only [listPrintSubs, hsw, if_false]
        exact ih
  · intro flip tasks fp s sfuel pd ps psub f t
    exact listPrintTask_flip flip tasks fp s sfuel pd ps psub f t

/-! ## Claim C9 -/

/-- The weight of a name under the task dict, with fuel: 1 for a leaf or
missing name, 1 plus the sum of the members' weights for a group task.  One
loop iteration consumes exactly one unit of weight of the work list. -/
def Wf (tasks : String → Option Task) : Nat → String → Nat
  | 0, _ => 1
  | k + 1, n =>
    match tasks n with
    | none => 1
    | some t =>
      if t.actions.isEmpty then 1 + ((t.task_dep.map (Wf tasks k)).sum) else 1

/-- The weight of a name, evaluated at fuel past its rank (where it is
stable). -/
def W (tasks : String → Option Task) (rank : String → Nat) (n : String) : Nat :=
  Wf tasks (rank n + 1) n

/-- Acyclicity of the group-edge graph on a closed name set `R`, witnessed
by a rank function that strictly decreases along the `task_dep` edges of
group tasks (tasks with empty actions). -/
def RankedAcyclic (tasks : String → Option Task) (R : String → Prop)
    (rank : String → Nat) : Prop :=
  ∀ n, R n → ∀ t, tasks n = some t → t.actions.isEmpty = true →
    ∀ d ∈ t.task_dep, R d ∧ rank d < rank n

theorem Wf_pos (tasks : String → Option Task) :
    ∀ (k : Nat) (n : String), 1 ≤ Wf tasks k n := by
  intro k n
  cases k with
  | zero => exact Nat.le_refl 1
  | succ k =>
    cases ht : tasks n with
    | none => simp [Wf, ht]
    | some t =>
      by_cases hg : t.actions.isEmpty
      · simp [Wf, ht, hg]
      · simp [Wf, ht, hg]

theorem Wf_eq_W (tasks : String → Option Task) (R : String → Prop)
    (rank : String → Nat) (hR : RankedAcyclic tasks R rank) :
    ∀ (m : Nat) (n : String), R n → rank n ≤ m → ∀ k, rank n ≤ k →
    Wf tasks (k + 1) n = W tasks rank n := by
  intro m
  induction m with
  | zero =>
    intro n hn hrank k _
    have h0 : rank n = 0 := Nat.le_zero.mp hrank
    rw [W, h0]
    simp only [Wf]
    cases ht : tasks n with
    | none => rfl
    | some t =>
      by_cases hg : t.actions.isEmpty
      · simp only [hg, if_true]
        have hmap : t.task_dep.map (Wf tasks k) = t.task_dep.map (Wf tasks 0) :=
          List.map_congr_left (fun d hd => absurd
            ((hR n hn t ht hg d hd).2.trans_le (Nat.le_of_eq h0))
            (Nat.not_lt_zero _))
        rw [hmap]
        simp [Wf]
      · simp [hg]
  | succ m ihm =>
    intro n hn hrank k hk
    rw [W]
    simp only [Wf]
    cases ht : tasks n with
    | none => rfl
    | some t =>
      by_cases hg : t.actions.isEmpty
      · simp only [hg, if_true]
        have hmem : ∀ d ∈ t.task_dep,
            Wf tasks k d = W tasks rank d ∧
            Wf tasks (rank n) d = W tasks rank d := by
          intro d hd
          obtain ⟨hRd, hlt⟩ := hR n hn t ht hg d hd
          constructor
          · obtain ⟨k2, rfl⟩ : ∃ k2, k = k2 + 1 := ⟨k - 1, by omega⟩
            exact ihm d hRd (by omega) k2 (by omega)
          · obtain ⟨r2, hr2⟩ : ∃ r2, rank n = r2 + 1 := ⟨rank n - 1, by omega⟩
            rw [hr2]
            exact ihm d hRd (by omega) r2 (by omega)
        rw [List.map_congr_left (fun d hd => (hmem d hd).1),
          List.map_congr_left (fun d hd => (hmem d hd).2)]
      · simp [hg]

theorem W_pos (tasks : String → Option Task) (rank : String → Nat)
    (n : String) : 1 ≤ W tasks rank n :=
  Wf_pos tasks (rank n + 1) n

theorem W_group (tasks : String → Option Task) (R : String → Prop)
    (rank : String → Nat) (hR : RankedAcyclic tasks R rank)
    (n : String) (hn : R n) (t : Task) (ht : tasks n = some t)
    (hg : t.actions.isEmpty = true) :
    W tasks rank n = 1 + (t.task_dep.map (W tasks rank)).sum := by
  rw [W]
  simp only [Wf, ht, hg, if_true]
  congr 1
  refine congrArg List.sum (List.map_congr_left ?_)
  intro d hd
  obtain ⟨hRd, hlt⟩ := hR n hn t ht hg d hd
  obtain ⟨r2, hr2⟩ : ∃ r2, rank n = r2 + 1 := ⟨rank n - 1, by omega⟩
  rw [hr2]
  exact Wf_eq_W tasks R rank hR r2 d hRd (by omega) r2 (by omega)

/-- The total weight of a work list. -/
def totalW (tasks : String → Option Task) (rank : String → Nat)
    (wl : List String) : Nat :=
  (wl.map (W tasks rank)).sum

theorem forgetLoop_no_nofuel (tasks : String → Option Task) (R : String → Prop)
    (rank : String → Nat) (hR : RankedAcyclic tasks R rank) :
    ∀ (fuel : Nat) (wl : List String) (s : DepStore) (out : List String),
    (∀ n ∈ wl, R n) → totalW tasks rank wl ≤ fuel →
    forgetLoop tasks fuel wl s out ≠ .nofuel := by
  intro fuel
  induction fuel with
  | zero =>
    intro wl s out hmem hw
    cases wl with
    | nil =>
      rw [forgetLoop_nil]
      intro h
      cases h
    | cons n rest =>
      exfalso
      have h1 := W_pos tasks rank n
      have h2 : totalW tasks rank (n :: rest) =
          W tasks rank n + totalW tasks rank rest := by
        simp [totalW]
      omega
  | succ f ih =>
    intro wl s out hmem hw
    cases wl with
    | nil =>
      rw [forgetLoop_nil]
      intro h
      cases h
    | cons n rest =>
      have hRn : R n := hmem n (List.mem_cons_self n rest)
      have hrest : ∀ d ∈ rest, R d := fun d hd => hmem d (List.mem_cons_of_mem n hd)
      have htot : totalW tasks rank (n :: rest) =
          W tasks rank n + totalW tasks rank rest := by
        simp [totalW]
      cases ht : tasks n with
      | none =>
        rw [forgetLoop_cons_missing tasks f n rest s out ht]
        intro h
        cases h
      | some t =>
        rw [forgetLoop_cons tasks f n rest s out t ht]
        by_cases hg : t.actions.isEmpty
        · rw [if_pos hg]
          apply ih
          · intro d hd
            rcases List.mem_append.mp hd with hd2 | hd2
            · exact hrest d hd2
            · exact (hR n hRn t ht hg d hd2).1
          · have hWn := W_group tasks R rank hR n hRn t ht hg
            have happ : totalW tasks rank (rest ++ t.task_dep) =
                totalW tasks rank rest + (t.task_dep.map (W tasks rank)).sum := by
              simp [totalW]
            omega
        · rw [if_neg hg]
          apply ih
          · exact hrest
          · have h1 := W_pos tasks rank n
            omega

theorem ignoreLoop_no_nofuel (tasks : String → Option Task) (R : String → Prop)
    (rank : String → Nat) (hR : RankedAcyclic tasks R rank) :
    ∀ (fuel : Nat) (wl : List String) (s : DepStore) (out : List String),
    (∀ n ∈ wl, R n) → totalW tasks rank wl ≤ fuel →
    ignoreLoop tasks fuel wl s out ≠ .nofuel := by
  intro fuel
  induction fuel with
  | zero =>
    intro wl s out hmem hw
    cases wl with
    | nil =>
      rw [ignoreLoop_nil]
      intro h
      cases h
    | cons n rest =>
      exfalso
      have h1 := W_pos tasks rank n
      have h2 : totalW tasks rank (n :: rest) =
          W tasks rank n + totalW tasks rank rest := by
        simp [totalW]
      omega
  | succ f ih =>
    intro wl s out hmem hw
    cases wl with
    | nil =>
      rw [ignoreLoop_nil]
      intro h
      cases h
    | cons n rest =>
      have hRn : R n := hmem n (List.mem_cons_self n rest)
      have hrest : ∀ d ∈ rest, R d := fun d hd => hmem d (List.mem_cons_of_mem n hd)
      have htot : totalW tasks rank (n :: rest) =
          W tasks rank n + totalW tasks rank rest := by
        simp [totalW]
      cases ht : tasks n with
      | none =>
        rw [ignoreLoop_cons_missing tasks f n rest s out ht]
        intro h
        cases h
      | some t =>
        rw [ignoreLoop_cons tasks f n rest s out t ht]
        by_cases hg : t.actions.isEmpty
        · rw [if_pos hg]
          apply ih
          · intro d hd
            rcases List.mem_append.mp hd with hd2 | hd2
            · exact hrest d hd2
            · exact (hR n hRn t ht hg d hd2).1
          · have hWn := W_group tasks R rank hR n hRn t ht hg
            have happ : totalW tasks rank (rest ++ t.task_dep) =
                totalW tasks rank rest + (t.task_dep.map (W tasks rank)).sum := by
              simp [totalW]
            omega
        · rw [if_neg hg]
          apply ih
          · exact hrest
          · have h1 := W_pos tasks rank n
            omega

/-- A group task depending on itself: the smallest cyclic group graph. -/
def cycTask : Task :=
  { name := "c", actions := [], task_dep := ["c"], file_dep := []
    doc := none, is_subtask := false }

/-- The task dict holding only the self-cyclic group task. -/
def cycTasks : String → Option Task := tasksOf [cycTask]

/-- Claim C9 (confirmed): when the `task_dep` edges of the group tasks
reachable from the work list are acyclic — witnessed by a rank function on a
closed name set `R` — the group-expansion loops of `doit_forget` and
`doit_ignore` terminate (some finite fuel suffices, so the fuel-free Python
loops finish); and the precondition is indeed what termination rests on,
since the loops carry no visited-set: on the one-task cycle `c → c` both
loops exhaust every amount of fuel. -/
theorem group_expansion_termination
    (tasks : String → Option Task) (R : String → Prop) (rank : String → Nat)
    (wl : List String) (s : DepStore) (out : List String)
    (hR : RankedAcyclic tasks R rank) (hwl : ∀ n ∈ wl, R n) :
    (∃ fuel, forgetLoop tasks fuel wl s out ≠ .nofuel ∧
      ignoreLoop tasks fuel wl s out ≠ .nofuel) ∧
    (∀ (fuel : Nat) (s2 : DepStore) (out2 : List String),
      forgetLoop cycTasks fuel ["c"] s2 out2 = .nofuel) ∧
    (∀ (fuel : Nat) (s2 : DepStore) (out2 : List String),
      ignoreLoop cycTasks fuel ["c"] s2 out2 = .nofuel) := by
  have hc : cycTasks "c" = some cycTask := by decide
  refine ⟨⟨totalW tasks rank wl,
    forgetLoop_no_nofuel tasks R rank hR _ wl s out hwl (Nat.le_refl _),
    ignoreLoop_no_nofuel tasks R rank hR _ wl s out hwl (Nat.le_refl _)⟩, ?_, ?_⟩
  · intro fuel
    induction fuel with
    | zero => intro s2 out2; rfl
    | succ f ihf =>
      intro s2 out2
      rw [forgetLoop_cons cycTasks f "c" [] s2 out2 cycTask hc]
      simpa using ihf (s2.remove "c") (out2 ++ ["forgeting " ++ "c"])
  · intro fuel
    induction fuel with
    | zero => intro s2 out2; rfl
    | succ f ihf =>
      intro s2 out2
      rw [ignoreLoop_cons cycTasks f "c" [] s2 out2 cycTask hc]
      simpa using ihf (s2.ignore "c") (out2 ++ ["ignoring " ++ "c"])

/-- Witness for `group_expansion_termination`: the acyclic three-task dodo
file `tasksGXY` ranked by group height, with work list `["g"]`. -/
theorem group_expansion_termination_witness :
    RankedAcyclic tasksGXY (fun n => n ∈ (["g", "x", "y"] : List String))
      (fun n => if n = "g" then 1 else 0) ∧
    (∀ n ∈ (["g"] : List String), n ∈ (["g", "x", "y"] : List String)) ∧
    (∃ fuel, forgetLoop tasksGXY fuel ["g"] storeGXY [] ≠ .nofuel ∧
      ignoreLoop tasksGXY fuel ["g"] storeGXY [] ≠ .nofuel) := by
  have hra : RankedAcyclic tasksGXY (fun n => n ∈ (["g", "x", "y"] : List String))
      (fun n => if n = "g" then 1 else 0) := by
    intro n hn t ht hg d hd
    simp only [List.mem_cons, List.not_mem_nil, or_false] at hn
    rcases hn with rfl | rfl | rfl
    · have hgt : tasksGXY "g" = some gTask := by decide
      rw [hgt] at ht
      cases ht
      have hd2 : d ∈ (["x", "y"] : List String) := hd
      simp only [List.mem_cons, List.not_mem_nil, or_false] at hd2
      rcases hd2 with rfl | rfl
      · exact ⟨by simp, by decide⟩
      · exact ⟨by simp, by decide⟩
    · have hxt : tasksGXY "x" = some xTask := by decide
      rw [hxt] at ht
      cases ht
      exact absurd hg (by decide)
    · have hyt : tasksGXY "y" = some yTask := by decide
      rw [hyt] at ht
      cases ht
      exact absurd hg (by decide)
  have hwl : ∀ n ∈ (["g"] : List String), n ∈ (["g", "x", "y"] : List String) := by
    simp
  exact ⟨hra, hwl,
    (group_expansion_termination tasksGXY
      (fun n => n ∈ (["g", "x", "y"] : List String))
      (fun n => if n = "g" then 1 else 0) ["g"] storeGXY [] hra hwl).1⟩

end Doit
